import Mathlib

/-!
Verification development for the tdom-path tree-rewriting and
path-resolution engine (`src/tdom_path/webpath.py`, `src/tdom_path/tree.py`).

The Python code is shallowly embedded: pure helper functions become Lean
functions, the resource backend (importlib) is an explicit environment of
functions, exceptions become `Except`, and the mutable
`collected_assets` set of the render strategy is threaded as explicit
state.  `PurePosixPath` values are modelled by `PPath` (an absolute flag
plus the list of path components, with `.` and empty components dropped at
parse time and `..` kept, exactly as pathlib does).  Python object
identity, which the tree walker uses to detect changed children, is
modelled by a `Bool` "is a new object" flag that each transform and walk
returns alongside its node.
-/

namespace TdomPath

/-- ASCII lowercasing of one character (the alternatives of the external
URL pattern are pure ASCII, so this captures `re.IGNORECASE`). -/
def lowerChar (c : Char) : Char :=
  if 'A' ≤ c && c ≤ 'Z' then Char.ofNat (c.toNat + 32) else c

/-- ASCII `str.lower()`. -/
def asciiLower (s : String) : String :=
  ⟨s.data.map lowerChar⟩

/-- Split a character list on every occurrence of a separator character
(Python `s.split(sep)` for a one-character separator). -/
def splitChar (c : Char) : List Char → List (List Char)
  | [] => [[]]
  | x :: xs =>
    match splitChar c xs with
    | [] => [[]]
    | g :: gs => if x = c then [] :: g :: gs else (x :: g) :: gs

/-- Python `s.split(sep)` for a one-character separator. -/
def strSplitChar (c : Char) (s : String) : List String :=
  (splitChar c s.data).map (fun l => ⟨l⟩)

/-- Python `s.startswith(p)` / anchored matching of a literal. -/
def strStartsWith (s p : String) : Bool :=
  p.data.isPrefixOf s.data

/-- Python `c in s` for a single character. -/
def strContainsChar (c : Char) (s : String) : Bool :=
  s.data.contains c

/-- Python `asset.lstrip("./")`: removes ALL leading characters belonging
to the set `{'.', '/'}` (not just one `./` or `../` prefix). -/
def lstripDotSlash (s : String) : String :=
  ⟨s.data.dropWhile (fun c => c = '.' || c = '/')⟩

/-- The nonempty `/`-separated pieces of a string; used by the relative
branch of `make_traversable`, which skips empty parts while navigating. -/
def nonemptyParts (s : String) : List String :=
  (strSplitChar '/' s).filter (fun p => p != "")

/-- Find the first occurrence of `sep` in a character list and split
around it. -/
def findSplit (sep : List Char) : List Char → Option (List Char × List Char)
  | [] => none
  | x :: xs =>
    if sep.isPrefixOf (x :: xs) then some ([], (x :: xs).drop sep.length)
    else (findSplit sep xs).map (fun p => (x :: p.1, p.2))

/-- Python `s.split(sep, 1)` guarded by `sep in s`: split on the first
occurrence only; `none` when `sep` does not occur in `s`. -/
def splitFirst (s sep : String) : Option (String × String) :=
  (findSplit sep.data s.data).map (fun p => (⟨p.1⟩, ⟨p.2⟩))

/-- Python `module_name.replace(".", "/")` (single-character pattern). -/
def dotToSlash (s : String) : String :=
  ⟨s.data.map (fun c => if c = '.' then '/' else c)⟩

/-- Join path components with `/` (the rendering of a relative
`PurePosixPath`'s components). -/
def joinSlash : List String → String
  | [] => ""
  | [p] => p
  | p :: rest => p ++ "/" ++ joinSlash rest

/-- Model of `pathlib.PurePosixPath`: an absolute flag plus the parsed
components.  Parsing collapses repeated slashes and single dots but keeps
`..` components, as pathlib does.  (The special `//`-root of pathlib is
not distinguished from `/`; no claim depends on it.) -/
structure PPath where
  absolute : Bool
  parts : List String
deriving DecidableEq, Repr

/-- Parse a string into a `PPath` the way `PurePosixPath(s)` parses it. -/
def parsePPath (s : String) : PPath :=
  ⟨strStartsWith s "/", (strSplitChar '/' s).filter (fun p => p != "" && p != ".")⟩

/-- `PurePosixPath.__truediv__`: if the right side is absolute it wins,
otherwise its components are appended. -/
def PPath.div (a b : PPath) : PPath :=
  if b.absolute then b else ⟨a.absolute, a.parts ++ b.parts⟩

/-- `PurePosixPath.parent`: drop the last component (the parent of `.`
and of `/` is itself). -/
def PPath.parent (p : PPath) : PPath :=
  ⟨p.absolute, p.parts.dropLast⟩

/-- `str(PurePosixPath)`: `/`-joined components, `"."` for an empty
relative path, with a leading `/` when absolute. -/
def PPath.render (p : PPath) : String :=
  if p.absolute then "/" ++ joinSlash p.parts
  else if p.parts.isEmpty then "." else joinSlash p.parts

/-- One step of POSIX `..`-normalization over path components: a `..`
cancels a preceding non-`..` component and otherwise accumulates. -/
def normStep (acc : List String) (p : String) : List String :=
  if p = ".." then
    match acc.getLast? with
    | some q => if q = ".." then acc ++ [".."] else acc.dropLast
    | none => [".."]
  else acc ++ [p]

/-- Normalize `..` components of a relative component list (used only to
state that the walk-up decomposition computed by the strategy is sound). -/
def normParts (l : List String) : List String :=
  l.foldl normStep []

/-- The candidate-scanning loop of `PurePosixPath.relative_to(other,
walk_up=True)` (CPython 3.12 `pathlib`): starting from `other` itself and
walking up through its ancestors, find the first ancestor that is `self`
or an ancestor of `self`; seeing a `..` name on a failed candidate raises.
The candidate is passed as its REVERSED component list; returns the
matched ancestor's components and the number of upward steps taken. -/
def findAnchor (selfParts : List String) : List String → Option (List String × Nat)
  | [] => some ([], 0)
  | h :: t =>
    if ((h :: t).reverse).isPrefixOf selfParts then some ((h :: t).reverse, 0)
    else if h = ".." then none
    else (findAnchor selfParts t).map (fun ck => (ck.1, ck.2 + 1))

/-- `selfp.relative_to(otherp, walk_up=True)`: `none` models the
`ValueError` cases (different anchors, or a `..` in `otherp` that would
have to be walked). -/
def relWalkUp (selfp otherp : PPath) : Option PPath :=
  if selfp.absolute != otherp.absolute then none
  else
    (findAnchor selfp.parts otherp.parts.reverse).map
      (fun ck => ⟨false, List.replicate ck.2 ".." ++ selfp.parts.drop ck.1.length⟩)

/-- A resolved resource handle (`importlib.resources.abc.Traversable`):
the resource root it was obtained from (`files(pkg)`) plus the segments
navigated with the `/` operator.  Handle equality models pathlib path
equality of the underlying Traversables. -/
structure Handle where
  pkg : String
  segs : List String
deriving DecidableEq, Repr

/-- `Traversable.__truediv__`: navigate to a child segment. -/
def Handle.child (h : Handle) (seg : String) : Handle :=
  ⟨h.pkg, h.segs ++ [seg]⟩

/-- The external resource backend plus the component-independent parts of
the host environment:
* `rootFor q` models `importlib.resources.files(q)` (`none` = the module
  cannot be imported, i.e. `ModuleNotFoundError`);
* `isFile h` models `Traversable.is_file()`;
* `rootAbs q` is the absolute filesystem path of module `q`'s resource
  root, used by `str(traversable)`. -/
structure Env where
  rootFor : String → Option Handle
  isFile : Handle → Bool
  rootAbs : String → String

/-- `str(traversable)`: the root's absolute path joined with the
navigated segments (pathlib drops empty segments when joining). -/
def handleStr (env : Env) (h : Handle) : String :=
  (h.segs.filter (fun p => p != "")).foldl
    (fun acc seg => acc ++ "/" ++ seg) (env.rootAbs h.pkg)

/-- A component context: `moduleName?` is `component.__module__` when the
object has that attribute (`none` models `hasattr(c, "__module__") ==
False`). -/
structure Component where
  moduleName? : Option String

/-- The error taxonomy raised by resolution and validation:
`missingContext` = `TypeError` for a component without `__module__`;
`missingModule` = `ModuleNotFoundError` from the backend;
`missingAsset` = `FileNotFoundError` from `_validate_asset_exists`
(carrying the attribute name and the failing handle). -/
inductive Err where
  | missingContext
  | missingModule (q : String)
  | missingAsset (attrName : String) (handle : Handle)
deriving DecidableEq, Repr

/-- `_parse_package_path`: split on the FIRST colon; without a colon the
code's edge case returns `(asset, "")`. -/
def parsePackagePath (s : String) : String × String :=
  match strSplitChar ':' s with
  | [] => (s, "")
  | [_] => (s, "")
  | q :: rest => (q, String.intercalate ":" rest)

/-- `_normalize_module_name`: drop the final dot-separated segment exactly
when it equals the one before it. -/
def normalizeModuleName (m : String) : String :=
  let parts := strSplitChar '.' m
  match parts.reverse with
  | a :: b :: _ => if a = b then String.intercalate "." parts.dropLast else m
  | _ => m

/-- The relative-branch navigation of `make_traversable`: walk the parts
of the cleaned sub-path with `/`, skipping empty parts. -/
def navSkipEmpty (root : Handle) (parts : List String) : Handle :=
  parts.foldl (fun h p => if p = "" then h else h.child p) root

/-- `make_traversable(component, asset)` (aliased `make_path` in
`tree.py`): package form when the asset contains a colon (split on the
first colon, component not consulted), otherwise relative form resolved
against the component's normalized module, with a `lstrip("./")` clean of
the asset string. -/
def makeTraversable (env : Env) (c : Component) (asset : String) : Except Err Handle :=
  if strContainsChar ':' asset then
    let pr := parsePackagePath asset
    match env.rootFor pr.1 with
    | none => .error (.missingModule pr.1)
    | some root =>
      .ok (if pr.2 = "" then root
           else (strSplitChar '/' pr.2).foldl Handle.child root)
  else
    match c.moduleName? with
    | none => .error .missingContext
    | some m =>
      let mn := normalizeModuleName m
      match env.rootFor mn with
      | none => .error (.missingModule mn)
      | some root => .ok (navSkipEmpty root (strSplitChar '/' (lstripDotSlash asset)))

/-- `_TraversableWithPath`: a resolved asset reference pairing the
resource handle with its module-relative Canonical Path. -/
structure RefVal where
  trav : Handle
  module_path : PPath
deriving DecidableEq, Repr

/-- An attribute value: a string, `None`, or (after annotation) a
resolved asset reference. -/
inductive AttrVal where
  | str (s : String)
  | null
  | ref (r : RefVal)
deriving DecidableEq, Repr

/-- `AssetReference`: frozen dataclass with fields `source` and
`module_path`; its generated equality (and hash) compares BOTH fields. -/
structure AssetReference where
  source : Handle
  module_path : PPath
deriving DecidableEq, Repr

/- The tdom markup tree.  `marked` on an element models
`isinstance(node, TraversableElement)`; attributes are an ordered map
with unique keys (a Python dict). -/
mutual
inductive Node where
  | elem (marked : Bool) (tag : String) (attrs : List (String × AttrVal)) (children : NodeList)
  | frag (children : NodeList)
  | text (s : String)
  | comment (s : String)
inductive NodeList where
  | nil
  | cons (head : Node) (tail : NodeList)
end

mutual
def Node.beq : Node → Node → Bool
  | .elem m1 t1 a1 c1, .elem m2 t2 a2 c2 =>
    m1 == m2 && t1 == t2 && a1 == a2 && NodeList.beq c1 c2
  | .frag c1, .frag c2 => NodeList.beq c1 c2
  | .text s1, .text s2 => s1 == s2
  | .comment s1, .comment s2 => s1 == s2
  | _, _ => false
termination_by structural n => n
def NodeList.beq : NodeList → NodeList → Bool
  | .nil, .nil => true
  | .cons h1 t1, .cons h2 t2 => Node.beq h1 h2 && NodeList.beq t1 t2
  | _, _ => false
termination_by structural l => l
end

def NodeList.toList : NodeList → List Node
  | .nil => []
  | .cons h t => h :: t.toList

def nlOf : List Node → NodeList
  | [] => .nil
  | h :: t => .cons h (nlOf t)

/-- `dict.get(name)` on an attribute map (`None` when absent). -/
def attrsGet (attrs : List (String × AttrVal)) (k : String) : AttrVal :=
  match attrs.find? (fun kv => kv.1 == k) with
  | some kv => kv.2
  | none => .null

/-- `attrs[name] = value` when the key is already present (the in-place
dict update; keys are unique in a dict). -/
def attrsSet (attrs : List (String × AttrVal)) (k : String) (v : AttrVal) :
    List (String × AttrVal) :=
  attrs.map (fun kv => if kv.1 == k then (kv.1, v) else kv)

def isRefVal : AttrVal → Bool
  | .ref _ => true
  | _ => false

/-- The alternatives of `_EXTERNAL_URL_PATTERN =
`^(https?://|//|mailto:|tel:|data:|javascript:|#)` with `re.IGNORECASE`. -/
def externalPrefixes : List String :=
  ["http://", "https://", "//", "mailto:", "tel:", "data:", "javascript:", "#"]

/-- `_EXTERNAL_URL_PATTERN.match(s)`: case-insensitive anchored match of
one of the alternatives (the prefixes are ASCII, so lowercasing the
subject gives the regex's IGNORECASE semantics). -/
def matchesExternal (s : String) : Bool :=
  externalPrefixes.any (fun p => strStartsWith (asciiLower s) p)

/-- `_should_process_href`: false for non-strings and empty strings,
false on an external-URL match, true otherwise. -/
def shouldProcessHref (v : AttrVal) : Bool :=
  match v with
  | .str s => !s.isEmpty && !matchesExternal s
  | _ => false

/-- The Canonical Path computed by `_transform_asset_element`
(tree.py:293-298): `PurePosixPath(normalized_module.replace(".", "/")) /
attr_value.lstrip("./")` — always derived from the component's module,
for package-form asset strings too. -/
def moduleAssetPath (m s : String) : PPath :=
  (parsePPath (dotToSlash (normalizeModuleName m))).div
    (parsePPath (lstripDotSlash s))

/-- `_transform_asset_element` restricted to the element's data (the tag
and children pass through unchanged): returns the new `marked` flag, the
new attribute map and whether a new element object was created. -/
def transformAssetAttrs (env : Env) (c : Component) (marked : Bool)
    (attrs : List (String × AttrVal)) (attrName : String) :
    Except Err (Bool × List (String × AttrVal) × Bool) :=
  match attrsGet attrs attrName with
  | .str s =>
    if !s.isEmpty && !matchesExternal s then
      match makeTraversable env c s with
      | .error e => .error e
      | .ok h =>
        if env.isFile h then
          let m := c.moduleName?.getD "unknown"
          let attrs' := attrsSet attrs attrName (.ref ⟨h, moduleAssetPath m s⟩)
          let hasPath := attrs'.any (fun kv => isRefVal kv.2)
          .ok (hasPath, attrs', true)
        else .error (.missingAsset attrName h)
    else .ok (marked, attrs, false)
  | _ => .ok (marked, attrs, false)

/-- The transform function of `make_path_nodes`: `link` elements get
their `href` transformed, `script` elements their `src`; every other
element passes through unchanged. -/
def annotateTransformElem (env : Env) (c : Component) (marked : Bool)
    (tag : String) (attrs : List (String × AttrVal)) :
    Except Err (Bool × List (String × AttrVal) × Bool) :=
  if tag = "link" then transformAssetAttrs env c marked attrs "href"
  else if tag = "script" then transformAssetAttrs env c marked attrs "src"
  else .ok (marked, attrs, false)

/- `_walk_tree` specialised to the annotate transform.  The transform is
applied to the node first; children are then walked left to right and the
parent is rebuilt — as a PLAIN element (`marked := false`), exactly as
`_walk_tree` does — only when at least one child is a new object. -/
mutual
def annotateWalk (env : Env) (c : Component) : Node → Except Err (Node × Bool)
  | .elem marked tag attrs ch =>
    match annotateTransformElem env c marked tag attrs with
    | .error e => .error e
    | .ok tr =>
      match annotateWalkList env c ch with
      | .error e => .error e
      | .ok rs =>
        if rs.any (fun r => r.2) then
          .ok (.elem false tag tr.2.1 (nlOf (rs.map (fun r => r.1))), true)
        else .ok (.elem tr.1 tag tr.2.1 ch, tr.2.2)
  | .frag ch =>
    match annotateWalkList env c ch with
    | .error e => .error e
    | .ok rs =>
      if rs.any (fun r => r.2) then .ok (.frag (nlOf (rs.map (fun r => r.1))), true)
      else .ok (.frag ch, false)
  | .text s => .ok (.text s, false)
  | .comment s => .ok (.comment s, false)
termination_by structural n => n
def annotateWalkList (env : Env) (c : Component) :
    NodeList → Except Err (List (Node × Bool))
  | .nil => .ok []
  | .cons n ns =>
    match annotateWalk env c n with
    | .error e => .error e
    | .ok r =>
      match annotateWalkList env c ns with
      | .error e => .error e
      | .ok rs => .ok (r :: rs)
termination_by structural l => l
end

/-- `make_path_nodes(target, component)`. -/
def makePathNodes (env : Env) (c : Component) (t : Node) : Except Err Node :=
  (annotateWalk env c t).map (fun r => r.1)

/-- The configuration part of `RelativePathStrategy`: `sitePre` models
the `site_prefix` field (`none` = no prefix; every non-`None`
`PurePosixPath` is truthy in Python, so presence alone selects the
prefix branch). -/
structure StratCfg where
  sitePre : Option PPath
deriving DecidableEq, Repr

/-- A whole `RelativePathStrategy` object: configuration plus the
mutable `collected_assets` set, modelled as a duplicate-free list. -/
structure Strategy where
  sitePre : Option PPath
  collected : List AssetReference
deriving DecidableEq, Repr

/-- `set.add` on the collected-assets set: a no-op when an equal
`AssetReference` is already present. -/
def addAsset (st : List AssetReference) (a : AssetReference) : List AssetReference :=
  if a ∈ st then st else st ++ [a]

/-- The fallback of `RelativePathStrategy.calculate_path` for a bare
`Traversable` source: recover a module-relative path from the absolute
path string by splitting after the first `/examples/` (else `/tests/`),
else use the absolute path itself. -/
def extractSourcePath (s : String) : PPath :=
  match splitFirst s "/examples/" with
  | some pr => parsePPath pr.2
  | none =>
    match splitFirst s "/tests/" with
    | some pr => parsePPath pr.2
    | none => parsePPath s

/-- The `source_path` computed at the top of `calculate_path`: a
`_TraversableWithPath` contributes its stored `module_path`; a bare
`Traversable` goes through the string-splitting fallback. -/
def calcSourcePath (env : Env) (source : RefVal ⊕ Handle) : PPath :=
  match source with
  | .inl w => w.module_path
  | .inr h => extractSourcePath (handleStr env h)

/-- `RelativePathStrategy.calculate_path(source, target)`: with a site
prefix, `str(site_prefix / source_path)` (target ignored); otherwise the
relative path from `target.parent` with `walk_up=True`, falling back to
`str(source_path)` when `relative_to` raises `ValueError`.  The method
reads no other state and mutates nothing. -/
def calculatePath (env : Env) (cfg : StratCfg) (source : RefVal ⊕ Handle)
    (target : PPath) : String :=
  let sp := calcSourcePath env source
  match cfg.sitePre with
  | some pre => (pre.div sp).render
  | none =>
    match relWalkUp sp target.parent with
    | some r => r.render
    | none => sp.render

/-- A direct method call `strategy.calculate_path(source, target)` on a
`RelativePathStrategy` object, with the object's state made explicit:
the body never touches `collected_assets`, so the returned object state
is the input state. -/
def calculatePathCall (env : Env) (s : Strategy) (source : RefVal ⊕ Handle)
    (target : PPath) : String × Strategy :=
  (calculatePath env ⟨s.sitePre⟩ source target, s)

/-- One attribute of the per-attribute loop of `_render_transform_node`:
a reference-valued attribute deposits its `AssetReference` into the
collected set and is replaced by the string `calculate_path` computes on
the UNWRAPPED handle; any other value is kept as is. -/
def renderAttrStep (env : Env) (cfg : StratCfg) (target : PPath)
    (acc : List (String × AttrVal) × List AssetReference)
    (kv : String × AttrVal) :
    List (String × AttrVal) × List AssetReference :=
  match kv.2 with
  | .ref w =>
    (acc.1 ++ [(kv.1, .str (calculatePath env cfg (.inr w.trav) target))],
     addAsset acc.2 ⟨w.trav, w.module_path⟩)
  | v => (acc.1 ++ [(kv.1, v)], acc.2)

/-- `_render_transform_node` restricted to the element's data: only
`TraversableElement`s (`marked`) with at least one reference-valued
attribute are rewritten; the result is a plain element
(`marked := false`) whose reference attributes are rendered strings. -/
def renderTransformElem (env : Env) (cfg : StratCfg) (target : PPath)
    (marked : Bool) (attrs : List (String × AttrVal))
    (st : List AssetReference) :
    (Bool × List (String × AttrVal) × Bool) × List AssetReference :=
  if !marked then ((marked, attrs, false), st)
  else if !(attrs.any (fun kv => isRefVal kv.2)) then ((marked, attrs, false), st)
  else
    let res := attrs.foldl (renderAttrStep env cfg target) ([], st)
    ((false, res.1, true), res.2)

/- `_walk_tree` specialised to the render transform of
`render_path_nodes`, threading the strategy's collected-assets state. -/
mutual
def renderWalk (env : Env) (cfg : StratCfg) (target : PPath) :
    Node → List AssetReference → (Node × Bool) × List AssetReference
  | .elem marked tag attrs ch, st =>
    let tr := renderTransformElem env cfg target marked attrs st
    let rec2 := renderWalkList env cfg target ch tr.2
    if rec2.1.any (fun r => r.2) then
      ((.elem false tag tr.1.2.1 (nlOf (rec2.1.map (fun r => r.1))), true), rec2.2)
    else ((.elem tr.1.1 tag tr.1.2.1 ch, tr.1.2.2), rec2.2)
  | .frag ch, st =>
    let rec2 := renderWalkList env cfg target ch st
    if rec2.1.any (fun r => r.2) then
      ((.frag (nlOf (rec2.1.map (fun r => r.1))), true), rec2.2)
    else ((.frag ch, false), rec2.2)
  | .text s, st => ((.text s, false), st)
  | .comment s, st => ((.comment s, false), st)
termination_by structural n => n
def renderWalkList (env : Env) (cfg : StratCfg) (target : PPath) :
    NodeList → List AssetReference → List (Node × Bool) × List AssetReference
  | .nil, st => ([], st)
  | .cons n ns, st =>
    let r := renderWalk env cfg target n st
    let rs := renderWalkList env cfg target ns r.2
    (r.1 :: rs.1, rs.2)
termination_by structural l => l
end

/-- `render_path_nodes(tree, target, strategy)`: returns the rewritten
tree and the strategy's collected-assets state after the call. -/
def renderPathNodes (env : Env) (cfg : StratCfg) (target : PPath) (t : Node)
    (st : List AssetReference) : Node × List AssetReference :=
  let r := renderWalk env cfg target t st
  (r.1.1, r.2)

/- Observational predicates over trees. -/

/- Does any element of the tree carry a resolved-asset-reference
attribute value? -/
mutual
def containsRef : Node → Bool
  | .elem _ _ attrs ch => attrs.any (fun kv => isRefVal kv.2) || containsRefL ch
  | .frag ch => containsRefL ch
  | .text _ => false
  | .comment _ => false
termination_by structural n => n
def containsRefL : NodeList → Bool
  | .nil => false
  | .cons n ns => containsRef n || containsRefL ns
termination_by structural l => l
end

/-- Would the annotate transform rewrite an element with this tag and
attribute map (a `link`/`script` with an eligible `href`/`src`)? -/
def elemEligible (tag : String) (attrs : List (String × AttrVal)) : Bool :=
  if tag = "link" then shouldProcessHref (attrsGet attrs "href")
  else if tag = "script" then shouldProcessHref (attrsGet attrs "src")
  else false

/- No subtree contains a `link`/`script` element carrying an eligible
local asset attribute. -/
mutual
def noEligible : Node → Bool
  | .elem _ tag attrs ch => !elemEligible tag attrs && noEligibleL ch
  | .frag ch => noEligibleL ch
  | .text _ => true
  | .comment _ => true
termination_by structural n => n
def noEligibleL : NodeList → Bool
  | .nil => true
  | .cons n ns => noEligible n && noEligibleL ns
termination_by structural l => l
end

/- No subtree contains a Path-bearing (`TraversableElement`) element. -/
mutual
def noMarked : Node → Bool
  | .elem marked _ _ ch => !marked && noMarkedL ch
  | .frag ch => noMarkedL ch
  | .text _ => true
  | .comment _ => true
termination_by structural n => n
def noMarkedL : NodeList → Bool
  | .nil => true
  | .cons n ns => noMarked n && noMarkedL ns
termination_by structural l => l
end

/-- Every reference-valued attribute of the map points at an existing
file. -/
def attrsValidated (env : Env) (attrs : List (String × AttrVal)) : Bool :=
  attrs.all (fun kv =>
    match kv.2 with
    | .ref w => env.isFile w.trav
    | _ => true)

/- Post-annotation well-formedness: no element still carries an eligible
untransformed asset string, and every stored reference has been
validated to exist. -/
mutual
def annotatedOK (env : Env) : Node → Bool
  | .elem _ tag attrs ch =>
    !elemEligible tag attrs && attrsValidated env attrs && annotatedOKL env ch
  | .frag ch => annotatedOKL env ch
  | .text _ => true
  | .comment _ => true
termination_by structural n => n
def annotatedOKL (env : Env) : NodeList → Bool
  | .nil => true
  | .cons n ns => annotatedOK env n && annotatedOKL env ns
termination_by structural l => l
end

/-- The error (if any) the annotate transform raises at one element. -/
def elemFailure (env : Env) (c : Component) (marked : Bool) (tag : String)
    (attrs : List (String × AttrVal)) : Option Err :=
  match annotateTransformElem env c marked tag attrs with
  | .error e => some e
  | .ok _ => none

/- All failures the Annotate Phase would encounter, in the walker's
pre-order (node before children, children left to right). -/
mutual
def assetFailures (env : Env) (c : Component) : Node → List Err
  | .elem marked tag attrs ch =>
    (elemFailure env c marked tag attrs).toList ++ assetFailuresL env c ch
  | .frag ch => assetFailuresL env c ch
  | .text _ => []
  | .comment _ => []
termination_by structural n => n
def assetFailuresL (env : Env) (c : Component) : NodeList → List Err
  | .nil => []
  | .cons n ns => assetFailures env c n ++ assetFailuresL env c ns
termination_by structural l => l
end

/- Definitions written from the SPEC'S words (not from the source), used
to compare the specified behaviour with the embedded code. -/

/-- Modelled from the spec: the classifier `isEligible` as §4.2 states it
— false for non-strings, `null` and empty strings; false on a
case-insensitive match of one of the external prefixes; true otherwise. -/
def isEligibleSpec (v : AttrVal) : Bool :=
  match v with
  | .null => false
  | .ref _ => false
  | .str s =>
    if s = "" then false
    else if externalPrefixes.any (fun p => strStartsWith (asciiLower s) p) then false
    else true

/-- Modelled from the spec: the Canonical Path as claim C1 states it —
slash-form of the qualifier joined with the cleaned sub-path, the
qualifier being the package name for a package-form asset and the
component's normalized module for a relative-form asset. -/
def canonicalPathClaim (c : Component) (s : String) : PPath :=
  if strContainsChar ':' s then
    let pr := parsePackagePath s
    (parsePPath (dotToSlash pr.1)).div (parsePPath pr.2)
  else
    (parsePPath (dotToSlash (normalizeModuleName (c.moduleName?.getD "unknown")))).div
      (parsePPath (lstripDotSlash s))

/-- Modelled from the spec: stripping "exactly one leading `./`- or
`../`-style prefix" from an asset string, as claim C4 states it. -/
def stripOneDotSlash (s : String) : String :=
  if strStartsWith s "./" then ⟨s.data.drop 2⟩
  else if strStartsWith s "../" then ⟨s.data.drop 3⟩
  else s

/- Concrete instances used by counterexamples and witnesses. -/

/-- A site layout under `/proj/examples/`: the packages `mysite` and
`mysite.components.heading` are importable, every resolved handle exists
as a file. -/
def envSite : Env :=
  ⟨fun q => if q = "mysite" || q = "mysite.components.heading"
            then some ⟨q, []⟩ else none,
   fun _ => true,
   fun q => "/proj/examples/" ++ dotToSlash q⟩

/-- The same layout with every existence check failing (for exercising
the validator). -/
def envBroken : Env :=
  ⟨fun q => if q = "mysite" || q = "mysite.components.heading"
            then some ⟨q, []⟩ else none,
   fun _ => false,
   fun q => "/proj/examples/" ++ dotToSlash q⟩

/-- A component defined in `mysite/components/heading.py`. -/
def compHeading : Component := ⟨some "mysite.components.heading"⟩

/-- A component defined in `mysite/components/heading/heading.py` (the
repeated-final-segment naming pattern). -/
def compHeadingHeading : Component := ⟨some "mysite.components.heading.heading"⟩

/-- A single `link` element with the given `href` string. -/
def linkTree (s : String) : Node :=
  .elem false "link" [("href", .str s)] .nil

/-- A `script[src]` element with an eligible asset that CONTAINS another
eligible asset element as its child — the nested-asset shape. -/
def nestedAssetTree : Node :=
  .elem false "script" [("src", .str "a.js")]
    (.cons (.elem false "link" [("href", .str "b.css")] .nil) .nil)

/-- A fragment holding two asset elements (used to observe which failure
aborts the annotate phase). -/
def twoAssetTree : Node :=
  .frag (.cons (linkTree "first.css") (.cons (linkTree "second.css") .nil))

/-- A tree with no eligible asset elements and no Path-bearing elements:
a `div` carrying an `href`, an external-URL `link`, and a text node. -/
def noopTree : Node :=
  .elem false "div" [("href", .str "styles.css")]
    (.cons (.elem false "link" [("href", .str "https://cdn.example/x.css")] .nil)
      (.cons (.text "hello") .nil))

/-- The `href` attribute value of a root element. -/
def hrefOf (n : Node) : AttrVal :=
  match n with
  | .elem _ _ attrs _ => attrsGet attrs "href"
  | _ => .null

/-- The annotated one-asset tree of the shared-strategy scenario. -/
def annotatedD : Node :=
  ((makePathNodes envSite compHeadingHeading (linkTree "static/styles.css")).toOption).getD
    (.text "")

/-- The annotated nested-asset tree. -/
def annotatedNested : Node :=
  ((makePathNodes envSite compHeading nestedAssetTree).toOption).getD (.text "")

/-- Two asset references sharing a Canonical Path but holding different
resource handles. -/
def refSharedA : AssetReference :=
  ⟨⟨"mysite.components.heading", ["a.css"]⟩,
   ⟨false, ["mysite", "components", "heading", "shared.css"]⟩⟩

/-- A second reference with the same Canonical Path as `refSharedA` but a
different handle. -/
def refSharedB : AssetReference :=
  ⟨⟨"mysite.components.heading", ["b.css"]⟩,
   ⟨false, ["mysite", "components", "heading", "shared.css"]⟩⟩

end TdomPath

namespace TdomPath

/- Helper lemmas (not tied to any single claim). -/

theorem navSkipEmpty_eq (root : Handle) (parts : List String) :
    navSkipEmpty root parts =
      ⟨root.pkg, root.segs ++ parts.filter (fun p => p != "")⟩ := by
  induction parts generalizing root with
  | nil => simp [navSkipEmpty]
  | cons p ps ih =>
    by_cases hp : p = ""
    · subst hp
      simpa [navSkipEmpty] using ih root
    · have : navSkipEmpty root (p :: ps) = navSkipEmpty (root.child p) ps := by
        simp [navSkipEmpty, hp]
      rw [this, ih]
      simp [Handle.child, hp]

theorem makeTraversable_rel (env : Env) (c : Component) (m : String)
    (root : Handle) (s : String) (hm : c.moduleName? = some m)
    (hroot : env.rootFor (normalizeModuleName m) = some root)
    (hcol : strContainsChar ':' s = false) :
    makeTraversable env c s =
      .ok ⟨root.pkg, root.segs ++ nonemptyParts (lstripDotSlash s)⟩ := by
  simp only [makeTraversable, hcol, Bool.false_eq_true, if_false, hm, hroot,
    navSkipEmpty_eq, nonemptyParts]

theorem lstrip_decomp (s : String) :
    ∃ pre : List Char, s.data = pre ++ (lstripDotSlash s).data ∧
      pre.all (fun c => c = '.' || c = '/') = true := by
  refine ⟨s.data.takeWhile (fun c => c = '.' || c = '/'), ?_, ?_⟩
  · simp [lstripDotSlash]
  · simp only [List.all_eq_true]
    intro c hc
    exact List.mem_takeWhile_imp (p := fun c => c = '.' || c = '/') hc

theorem head_dropWhile_not {α : Type} (p : α → Bool) :
    ∀ (l : List α) (c : α), (l.dropWhile p).head? = some c → p c = false := by
  intro l
  induction l with
  | nil => intro c h; simp [List.dropWhile] at h
  | cons x xs ih =>
    intro c h
    by_cases hx : p x
    · rw [List.dropWhile_cons_of_pos hx] at h
      exact ih c h
    · rw [List.dropWhile_cons_of_neg hx] at h
      simp only [List.head?_cons, Option.some.injEq] at h
      subst h
      exact Bool.eq_false_iff.mpr hx

end TdomPath

namespace TdomPath

/-- Claim C5 counterexample: two `AssetReference`s with equal Canonical
Paths but different resource handles are NOT equal, so equality is not
defined by Canonical Path alone. -/
theorem claim_C5_cex :
    ¬ ((refSharedA = refSharedB) ↔ refSharedA.module_path = refSharedB.module_path) := by
  decide

/-- Claim C5 (amended): `AssetReference` equality (the frozen dataclass
equality used for set deduplication) holds iff BOTH the resource handle
and the Canonical Path agree; equal Canonical Paths alone do not suffice
when the handles differ. -/
theorem claim_C5 : ∀ a b : AssetReference,
    a = b ↔ a.source = b.source ∧ a.module_path = b.module_path := by
  intro a b
  cases a
  cases b
  simp

/-- Claim C6: the classifier `_should_process_href` returns false exactly
for non-string/null/empty values and strings that case-insensitively
start with one of the external prefixes, and true for every other string
(including bare relative paths and `./`/`../`-prefixed ones). -/
theorem claim_C6 :
    (∀ v : AttrVal, shouldProcessHref v = isEligibleSpec v)
    ∧ shouldProcessHref (.str "https://x/y.css") = false
    ∧ shouldProcessHref (.str "//x/y.css") = false
    ∧ shouldProcessHref (.str "mailto:a@b.co") = false
    ∧ shouldProcessHref (.str "#frag") = false
    ∧ shouldProcessHref (.str "HTTP://X/Y.CSS") = false
    ∧ shouldProcessHref (.str "static/a.css") = true
    ∧ shouldProcessHref (.str "./a.css") = true
    ∧ shouldProcessHref (.str "../a.css") = true
    ∧ shouldProcessHref .null = false
    ∧ shouldProcessHref (.str "") = false := by
  refine ⟨?_, by decide, by decide, by decide, by decide, by decide, by decide,
    by decide, by decide, by decide, by decide⟩
  intro v
  cases v with
  | null => rfl
  | ref r => rfl
  | str s =>
    simp only [shouldProcessHref, isEligibleSpec, matchesExternal]
    by_cases h : s = ""
    · subst h; rfl
    · have hne : s.isEmpty = false :=
        Bool.eq_false_iff.mpr (fun hx => h ((String.isEmpty_iff s).mp hx))
      rw [hne]
      cases hA : externalPrefixes.any (fun p => strStartsWith (asciiLower s) p) <;>
        simp [h]

/-- Claim C4 counterexample: resolving the asset string `"./.hidden.css"`
navigates to the segment `"hidden.css"` — the leading dot of the name
after the single `./` prefix is stripped as well, so the remainder after
one prefix is NOT preserved. -/
theorem claim_C4_cex :
    makeTraversable envSite compHeading "./.hidden.css" =
      .ok ⟨"mysite.components.heading", ["hidden.css"]⟩
    ∧ nonemptyParts (stripOneDotSlash "./.hidden.css") = [".hidden.css"]
    ∧ (["hidden.css"] : List String) ≠ [".hidden.css"] :=
  ⟨rfl, rfl, by decide⟩

/-- Claim C4 (amended): for a colon-free asset the resolver strips ALL
leading `'.'` and `'/'` characters from the asset string (one `./` or
`../` prefix is removed, but so are longer runs and a leading dot of the
first remaining name); the maximal such run is stripped (the first
remaining character is neither `'.'` nor `'/'`), and the remainder is
preserved both in the segment-by-segment navigation (split on `/`,
empty segments skipped) and in the Canonical Path. -/
theorem claim_C4 (env : Env) (c : Component) (m : String) (root : Handle)
    (s : String) (hm : c.moduleName? = some m)
    (hroot : env.rootFor (normalizeModuleName m) = some root)
    (hcol : strContainsChar ':' s = false) :
    makeTraversable env c s =
      .ok ⟨root.pkg, root.segs ++ nonemptyParts (lstripDotSlash s)⟩
    ∧ (∃ pre : List Char, s.data = pre ++ (lstripDotSlash s).data ∧
        pre.all (fun ch => ch = '.' || ch = '/') = true)
    ∧ (∀ ch, (lstripDotSlash s).data.head? = some ch →
        (ch = '.' || ch = '/') = false)
    ∧ moduleAssetPath m s =
        (parsePPath (dotToSlash (normalizeModuleName m))).div
          (parsePPath (lstripDotSlash s)) := by
  refine ⟨makeTraversable_rel env c m root s hm hroot hcol, lstrip_decomp s, ?_, rfl⟩
  intro ch hch
  exact head_dropWhile_not _ s.data ch hch

/-- Claim C4 witness: a concrete `../`-prefixed asset with a doubled
slash resolves without error to the expected segments. -/
theorem claim_C4_witness :
    makeTraversable envSite compHeading "../static//app.js" =
      .ok ⟨"mysite.components.heading", ["static", "app.js"]⟩ :=
  (claim_C4 envSite compHeading "mysite.components.heading"
    ⟨"mysite.components.heading", []⟩ "../static//app.js" rfl rfl rfl).1

/-- Claim C10: a colon-free asset string consisting only of `'.'` and
`'/'` characters (including the empty string) resolves without error to
the component module's resource root itself; more generally, for any
colon-free asset the navigation steps are exactly the nonempty segments
of the cleaned string, so consecutive or trailing slashes never raise
and never add navigation steps. -/
theorem claim_C10 (env : Env) (c : Component) (m : String) (root : Handle)
    (s : String) (hm : c.moduleName? = some m)
    (hroot : env.rootFor (normalizeModuleName m) = some root)
    (hcol : strContainsChar ':' s = false)
    (hchars : s.data.all (fun ch => ch = '.' || ch = '/') = true) :
    makeTraversable env c s = .ok root
    ∧ ∀ s', strContainsChar ':' s' = false →
        makeTraversable env c s' =
          .ok ⟨root.pkg, root.segs ++ nonemptyParts (lstripDotSlash s')⟩ := by
  constructor
  · have h1 := makeTraversable_rel env c m root s hm hroot hcol
    have h2 : lstripDotSlash s = "" := by
      have : s.data.dropWhile (fun c => c = '.' || c = '/') = [] := by
        rw [List.dropWhile_eq_nil_iff]
        intro a ha
        exact (List.all_eq_true.mp hchars) a ha
      simp [lstripDotSlash, this]
    rw [h2] at h1
    have h3 : nonemptyParts "" = [] := rfl
    rw [h3, List.append_nil] at h1
    exact h1
  · intro s' hcol'
    exact makeTraversable_rel env c m root s' hm hroot hcol'

/-- Claim C10 witness: the asset string `".//."` resolves to the module
root handle itself. -/
theorem claim_C10_witness :
    makeTraversable envSite compHeading ".//." =
      .ok ⟨"mysite.components.heading", []⟩ :=
  (claim_C10 envSite compHeading "mysite.components.heading"
    ⟨"mysite.components.heading", []⟩ ".//." rfl rfl rfl (by decide)).1

theorem transformAssetAttrs_hit (env : Env) (c : Component) (mk : Bool)
    (s attrName : String) (h : Handle) (m : String)
    (hm : c.moduleName? = some m)
    (helig : (!s.isEmpty && !matchesExternal s) = true)
    (hmk : makeTraversable env c s = .ok h)
    (hfile : env.isFile h = true) :
    transformAssetAttrs env c mk [(attrName, .str s)] attrName =
      .ok (true, [(attrName, .ref ⟨h, moduleAssetPath m s⟩)], true) := by
  have hget : attrsGet [(attrName, .str s)] attrName = .str s := by
    simp [attrsGet]
  unfold transformAssetAttrs
  rw [hget]
  simp [helig, hmk, hfile, hm, attrsSet, isRefVal]

/-- Claim C1 counterexample: a package-form asset `"mysite:static/app.js"`
annotated for a component in `mysite.components.heading` stores the
Canonical Path `mysite/components/heading/mysite:static/app.js` — derived
from the COMPONENT's module with the colon kept inside the path — and not
the package-qualifier path `mysite/static/app.js` the claim prescribes. -/
theorem claim_C1_cex :
    makePathNodes envSite compHeading (linkTree "mysite:static/app.js") =
      .ok (.elem true "link"
        [("href", .ref ⟨⟨"mysite", ["static", "app.js"]⟩,
          ⟨false, ["mysite", "components", "heading", "mysite:static", "app.js"]⟩⟩)]
        .nil)
    ∧ (⟨false, ["mysite", "components", "heading", "mysite:static", "app.js"]⟩ : PPath) ≠
        canonicalPathClaim compHeading "mysite:static/app.js" :=
  ⟨rfl, by decide⟩

/-- Claim C1 (amended): for every element the Annotate Phase transforms,
the stored Canonical Path is the slash-form of the component's normalized
dotted module name joined with the asset string stripped of all leading
`'.'`/`'/'` characters — for package-form assets as well, whose package
qualifier never enters the Canonical Path (the colon stays embedded in a
path component). -/
theorem claim_C1 (env : Env) (c : Component) (m s : String) (h : Handle)
    (hm : c.moduleName? = some m)
    (helig : shouldProcessHref (.str s) = true)
    (hmk : makeTraversable env c s = .ok h)
    (hfile : env.isFile h = true) :
    makePathNodes env c (.elem false "link" [("href", .str s)] .nil) =
      .ok (.elem true "link" [("href", .ref ⟨h, moduleAssetPath m s⟩)] .nil)
    ∧ makePathNodes env c (.elem false "script" [("src", .str s)] .nil) =
      .ok (.elem true "script" [("src", .ref ⟨h, moduleAssetPath m s⟩)] .nil)
    ∧ moduleAssetPath m s =
        (parsePPath (dotToSlash (normalizeModuleName m))).div
          (parsePPath (lstripDotSlash s)) := by
  simp only [shouldProcessHref] at helig
  have hhit := transformAssetAttrs_hit env c false s "href" h m hm helig hmk hfile
  have hhit2 := transformAssetAttrs_hit env c false s "src" h m hm helig hmk hfile
  refine ⟨?_, ?_, rfl⟩
  · simp [makePathNodes, annotateWalk, annotateWalkList, annotateTransformElem, hhit,
      Except.map]
  · simp [makePathNodes, annotateWalk, annotateWalkList, annotateTransformElem, hhit2,
      Except.map]

theorem joinSlash_cons_ne (x : String) (l : List String) (hl : l ≠ []) :
    joinSlash (x :: l) = x ++ "/" ++ joinSlash l := by
  cases l with
  | nil => exact absurd rfl hl
  | cons y ys => rfl

theorem joinSlash_append (a b : List String) (ha : a ≠ []) (hb : b ≠ []) :
    joinSlash (a ++ b) = joinSlash a ++ "/" ++ joinSlash b := by
  induction a with
  | nil => exact absurd rfl ha
  | cons x xs ih =>
    cases xs with
    | nil =>
      rw [List.singleton_append, joinSlash_cons_ne x b hb]
      rfl
    | cons z zs =>
      rw [List.cons_append, joinSlash_cons_ne x (z :: zs ++ b) (by simp),
        ih (by simp), joinSlash_cons_ne x (z :: zs) (by simp)]
      simp [String.append_assoc]

theorem findAnchor_spec (sp : List String) :
    ∀ (candRev c : List String) (k : Nat),
      findAnchor sp candRev = some (c, k) →
      c.isPrefixOf sp = true ∧
      ∃ rest, candRev.reverse = c ++ rest ∧ rest.length = k ∧
        rest.all (fun p => p != "..") = true := by
  intro candRev
  induction candRev with
  | nil =>
    intro c k h
    have h' : (some (([] : List String), (0 : Nat)) : Option (List String × Nat)) =
        some (c, k) := h
    obtain ⟨hc, hk⟩ : [] = c ∧ 0 = k := by simpa using h'
    subst hc; subst hk
    exact ⟨by simp [List.isPrefixOf], ⟨[], by simp, rfl, rfl⟩⟩
  | cons h t ih =>
    intro c k hf
    rw [findAnchor] at hf
    by_cases hpre : ((h :: t).reverse).isPrefixOf sp
    · rw [if_pos hpre] at hf
      simp only [Option.some.injEq, Prod.mk.injEq] at hf
      obtain ⟨hc, hk⟩ := hf
      subst hc; subst hk
      exact ⟨hpre, ⟨[], by simp, rfl, rfl⟩⟩
    · rw [if_neg hpre] at hf
      by_cases hdd : h = ".."
      · rw [if_pos hdd] at hf; exact absurd hf (by simp)
      · rw [if_neg hdd] at hf
        cases hfa : findAnchor sp t with
        | none => rw [hfa] at hf; exact absurd hf (by simp)
        | some ck =>
          rw [hfa] at hf
          simp only [Option.map_some', Option.some.injEq] at hf
          obtain ⟨hpre', rest, hdec, hlen, hall⟩ := ih ck.1 ck.2 (by rw [hfa])
          have hc : c = ck.1 := by
            cases hf; rfl
          have hk : k = ck.2 + 1 := by
            cases hf; rfl
          subst hc; subst hk
          refine ⟨hpre', ⟨rest ++ [h], ?_, by simp [hlen], ?_⟩⟩
          · rw [List.reverse_cons, hdec, List.append_assoc]
          · simp only [List.all_append, hall, Bool.true_and, List.all_cons,
              List.all_nil, Bool.and_true]
            simpa using hdd

theorem relWalkUp_spec (selfp otherp r : PPath)
    (h : relWalkUp selfp otherp = some r) :
    r.absolute = false ∧ selfp.absolute = otherp.absolute ∧
    ∃ c rest, c.isPrefixOf selfp.parts = true ∧ otherp.parts = c ++ rest ∧
      rest.all (fun p => p != "..") = true ∧
      r.parts = List.replicate rest.length ".." ++ selfp.parts.drop c.length := by
  unfold relWalkUp at h
  by_cases hab : selfp.absolute != otherp.absolute
  · rw [if_pos hab] at h; exact absurd h (by simp)
  · rw [if_neg hab] at h
    have hab' : selfp.absolute = otherp.absolute := by
      simpa using hab
    cases hfa : findAnchor selfp.parts otherp.parts.reverse with
    | none => rw [hfa] at h; exact absurd h (by simp)
    | some ck =>
      rw [hfa] at h
      simp only [Option.map_some', Option.some.injEq] at h
      obtain ⟨hpre, rest, hdec, hlen, hall⟩ :=
        findAnchor_spec selfp.parts otherp.parts.reverse ck.1 ck.2 (by rw [hfa])
      rw [List.reverse_reverse] at hdec
      refine ⟨?_, hab', ck.1, rest, hpre, hdec, hall, ?_⟩
      · rw [← h]
      · rw [← h, hlen]

theorem normParts_append (xs ys : List String) :
    normParts (xs ++ ys) = ys.foldl normStep (normParts xs) := by
  simp [normParts, List.foldl_append]

theorem foldl_normStep_noDots (rest : List String)
    (h : rest.all (fun p => p != "..") = true) :
    ∀ acc, rest.foldl normStep acc = acc ++ rest := by
  induction rest with
  | nil => intro acc; simp
  | cons x xs ih =>
    intro acc
    simp only [List.all_cons, Bool.and_eq_true] at h
    have hx : x ≠ ".." := by simpa using h.1
    simp only [List.foldl_cons]
    have hs : normStep acc x = acc ++ [x] := by simp [normStep, hx]
    rw [hs, ih h.2, List.append_assoc]
    rfl

theorem foldl_normStep_cancel (rest : List String)
    (h : rest.all (fun p => p != "..") = true) :
    ∀ acc, (List.replicate rest.length "..").foldl normStep (acc ++ rest) = acc := by
  induction rest using List.reverseRecOn with
  | nil => intro acc; simp
  | append_singleton rs a ih =>
    intro acc
    simp only [List.all_append, List.all_cons, List.all_nil, Bool.and_eq_true] at h
    have ha : a ≠ ".." := by simpa using h.2.1
    have hlen : (rs ++ [a]).length = rs.length + 1 := by simp
    rw [hlen, List.replicate_succ, List.foldl_cons]
    have hstep : normStep (acc ++ (rs ++ [a])) ".." = acc ++ rs := by
      rw [← List.append_assoc]
      simp [normStep, List.getLast?_concat, ha, List.dropLast_concat]
    rw [hstep, ih h.1]

theorem normParts_decomp (c tail rest : List String)
    (hrest : rest.all (fun p => p != "..") = true) :
    normParts (c ++ rest ++ (List.replicate rest.length ".." ++ tail)) =
      normParts (c ++ tail) := by
  rw [normParts_append (c ++ rest), List.foldl_append]
  rw [normParts_append c, foldl_normStep_noDots rest hrest]
  rw [foldl_normStep_cancel rest hrest]
  rw [normParts_append c]

/-- Claim C3: `RelativePathStrategy.calculate_path` on a Resolved Asset
Reference: with a Site Prefix the result is `str(prefix / canonical)` —
the prefix and the Canonical Path joined by `/` — and the target location
has no effect; without a prefix it is the walk-up relative path from the
target's containing directory to the Canonical Path (sound: appending it
to the target directory and resolving `..` components gives back the
Canonical Path, and upward steps are `..` components); and when no valid
relative decomposition exists the Canonical Path is returned unchanged
rather than an error being raised. -/
theorem claim_C3 :
    (∀ (env : Env) (pre : PPath) (w : RefVal) (t1 t2 : PPath),
      calculatePath env ⟨some pre⟩ (.inl w) t1 =
        calculatePath env ⟨some pre⟩ (.inl w) t2)
    ∧ (∀ (env : Env) (pre : PPath) (w : RefVal) (t : PPath),
        pre.parts ≠ [] → w.module_path.absolute = false →
        w.module_path.parts ≠ [] →
        calculatePath env ⟨some pre⟩ (.inl w) t =
          pre.render ++ "/" ++ joinSlash w.module_path.parts)
    ∧ (∀ (env : Env) (w : RefVal) (t r : PPath),
        relWalkUp w.module_path t.parent = some r →
        calculatePath env ⟨none⟩ (.inl w) t = r.render ∧ r.absolute = false ∧
          normParts (t.parent.parts ++ r.parts) = normParts w.module_path.parts)
    ∧ (∀ (env : Env) (w : RefVal) (t : PPath),
        relWalkUp w.module_path t.parent = none →
        calculatePath env ⟨none⟩ (.inl w) t = w.module_path.render) := by
  refine ⟨fun env pre w t1 t2 => rfl, ?_, ?_, ?_⟩
  · intro env pre w t hpre habs hparts
    have hpe : pre.parts.isEmpty = false :=
      Bool.eq_false_iff.mpr (fun hh => hpre (List.isEmpty_iff.mp hh))
    have hae : (pre.parts ++ w.module_path.parts).isEmpty = false :=
      Bool.eq_false_iff.mpr
        (fun hh => hpre ((List.append_eq_nil.mp (List.isEmpty_iff.mp hh)).1))
    simp only [calculatePath, calcSourcePath, PPath.div, habs, Bool.false_eq_true,
      if_false]
    cases hpa : pre.absolute with
    | true =>
      simp only [PPath.render, hpa, if_true]
      rw [joinSlash_append pre.parts w.module_path.parts hpre hparts]
      simp [String.append_assoc]
    | false =>
      simp only [PPath.render, hpa, Bool.false_eq_true, if_false, hpe, hae]
      rw [joinSlash_append pre.parts w.module_path.parts hpre hparts]
  · intro env w t r h
    obtain ⟨hrabs, _, c, rest, hpre, hother, hall, hrparts⟩ :=
      relWalkUp_spec w.module_path t.parent r h
    refine ⟨?_, hrabs, ?_⟩
    · simp only [calculatePath, calcSourcePath, h]
    · obtain ⟨tail, htail⟩ := List.isPrefixOf_iff_prefix.mp hpre
      have hdrop : w.module_path.parts.drop c.length = tail := by
        rw [← htail, List.drop_left]
      rw [hother, hrparts, hdrop, ← htail]
      exact normParts_decomp c tail rest hall
  · intro env w t h
    simp only [calculatePath, calcSourcePath, h]

/-- Claim C3 witness: both branches evaluated at concrete inputs — with
a prefix the target is ignored and the result is the prefixed canonical
path; without one the walk-up relative path is produced. -/
theorem claim_C3_witness :
    calculatePath envSite ⟨some (parsePPath "site/static")⟩
        (.inl ⟨⟨"x", []⟩, parsePPath "mysite/components/heading/shared.css"⟩)
        (parsePPath "mysite/pages/about.html") =
      "site/static/mysite/components/heading/shared.css"
    ∧ calculatePath envSite ⟨none⟩
        (.inl ⟨⟨"x", []⟩, parsePPath "mysite/components/heading/shared.css"⟩)
        (parsePPath "mysite/pages/about.html") =
      "../components/heading/shared.css" := by
  constructor
  · exact claim_C3.2.1 envSite (parsePPath "site/static")
      ⟨⟨"x", []⟩, parsePPath "mysite/components/heading/shared.css"⟩
      (parsePPath "mysite/pages/about.html") (by decide) rfl (by decide)
  · exact (claim_C3.2.2.1 envSite
      ⟨⟨"x", []⟩, parsePPath "mysite/components/heading/shared.css"⟩
      (parsePPath "mysite/pages/about.html")
      ⟨false, ["..", "components", "heading", "shared.css"]⟩ rfl).1

theorem mem_addAsset_self (l : List AssetReference) (a : AssetReference) :
    a ∈ addAsset l a := by
  unfold addAsset
  by_cases h : a ∈ l
  · simp only [if_pos h]
    exact h
  · simp [h]

theorem mem_addAsset_of_mem (l : List AssetReference) (a b : AssetReference)
    (h : a ∈ l) : a ∈ addAsset l b := by
  unfold addAsset
  by_cases hb : b ∈ l
  · simpa [hb] using h
  · simp [hb, h]

theorem renderAttrStep_mono (env : Env) (cfg : StratCfg) (target : PPath)
    (acc : List (String × AttrVal) × List AssetReference)
    (kv : String × AttrVal) (a : AssetReference) (h : a ∈ acc.2) :
    a ∈ (renderAttrStep env cfg target acc kv).2 := by
  unfold renderAttrStep
  cases hv : kv.2 with
  | ref w => exact mem_addAsset_of_mem acc.2 a _ h
  | str s => exact h
  | null => exact h

theorem renderFold_mono (env : Env) (cfg : StratCfg) (target : PPath) :
    ∀ (attrs : List (String × AttrVal))
      (acc : List (String × AttrVal) × List AssetReference) (a : AssetReference),
      a ∈ acc.2 → a ∈ (attrs.foldl (renderAttrStep env cfg target) acc).2 := by
  intro attrs
  induction attrs with
  | nil => intro acc a h; exact h
  | cons kv rest ih =>
    intro acc a h
    exact ih _ a (renderAttrStep_mono env cfg target acc kv a h)

theorem renderFold_adds (env : Env) (cfg : StratCfg) (target : PPath) :
    ∀ (attrs : List (String × AttrVal))
      (acc : List (String × AttrVal) × List AssetReference) (k : String) (w : RefVal),
      (k, AttrVal.ref w) ∈ attrs →
      (⟨w.trav, w.module_path⟩ : AssetReference) ∈
        (attrs.foldl (renderAttrStep env cfg target) acc).2 := by
  intro attrs
  induction attrs with
  | nil => intro acc k w h; exact absurd h (by simp)
  | cons kv rest ih =>
    intro acc k w h
    rcases List.mem_cons.mp h with heq | hmem
    · subst heq
      refine renderFold_mono env cfg target rest _ _ ?_
      exact mem_addAsset_self acc.2 _
    · exact ih _ k w hmem

theorem renderTransform_state_mono (env : Env) (cfg : StratCfg) (target : PPath)
    (marked : Bool) (attrs : List (String × AttrVal))
    (st : List AssetReference) (a : AssetReference) (h : a ∈ st) :
    a ∈ (renderTransformElem env cfg target marked attrs st).2 := by
  unfold renderTransformElem
  split
  · exact h
  · split
    · exact h
    · exact renderFold_mono env cfg target attrs ([], st) a h

theorem renderWalk_elem_state (env : Env) (cfg : StratCfg) (target : PPath)
    (marked : Bool) (tag : String) (attrs : List (String × AttrVal))
    (ch : NodeList) (st : List AssetReference) :
    (renderWalk env cfg target (.elem marked tag attrs ch) st).2 =
      (renderWalkList env cfg target ch
        (renderTransformElem env cfg target marked attrs st).2).2 := by
  simp only [renderWalk]
  split <;> rfl

mutual
theorem renderWalk_state_mono (env : Env) (cfg : StratCfg) (target : PPath) :
    ∀ (n : Node) (st : List AssetReference) (a : AssetReference),
      a ∈ st → a ∈ (renderWalk env cfg target n st).2
  | .elem marked tag attrs ch => fun st a h => by
    rw [renderWalk_elem_state]
    exact renderWalkList_state_mono env cfg target ch _ a
      (renderTransform_state_mono env cfg target marked attrs st a h)
  | .frag ch => fun st a h => by
    simp only [renderWalk]
    split <;> exact renderWalkList_state_mono env cfg target ch st a h
  | .text s => fun _ _ h => h
  | .comment s => fun _ _ h => h
termination_by structural n => n
theorem renderWalkList_state_mono (env : Env) (cfg : StratCfg) (target : PPath) :
    ∀ (l : NodeList) (st : List AssetReference) (a : AssetReference),
      a ∈ st → a ∈ (renderWalkList env cfg target l st).2
  | .nil => fun _ _ h => h
  | .cons n ns => fun st a h => by
    simp only [renderWalkList]
    exact renderWalkList_state_mono env cfg target ns _ a
      (renderWalk_state_mono env cfg target n st a h)
termination_by structural l => l
end

/-- Claim C2 counterexample: a direct, successful
`strategy.calculate_path(r, t)` call on a Resolved Asset Reference leaves
the strategy's `collected_assets` unchanged — the entry is NOT added by
`calculate_path`. -/
theorem claim_C2_cex :
    (calculatePathCall envSite ⟨none, []⟩
      (.inl ⟨⟨"mysite.components.heading", ["shared.css"]⟩,
        ⟨false, ["mysite", "components", "heading", "shared.css"]⟩⟩)
      (parsePPath "mysite/index.html")).2.collected = []
    ∧ (⟨⟨"mysite.components.heading", ["shared.css"]⟩,
        ⟨false, ["mysite", "components", "heading", "shared.css"]⟩⟩ : AssetReference) ∉
      (calculatePathCall envSite ⟨none, []⟩
        (.inl ⟨⟨"mysite.components.heading", ["shared.css"]⟩,
          ⟨false, ["mysite", "components", "heading", "shared.css"]⟩⟩)
        (parsePPath "mysite/index.html")).2.collected :=
  ⟨rfl, by decide⟩

/-- Claim C2 (amended): `calculate_path` itself never mutates
`collected_assets`; it is the Render Phase that, for each attribute
holding a Resolved Asset Reference of a Path-bearing element, adds (or
confirms) the (handle, Canonical Path) entry in the shared strategy's
collected set before invoking `calculate_path`.  Consequently, rendering
the same annotated one-asset tree against two target locations in
different directories with one shared strategy leaves the collected set
at size 1 while the two rendered path strings differ. -/
theorem claim_C2 :
    (∀ (env : Env) (s : Strategy) (src : RefVal ⊕ Handle) (t : PPath),
      (calculatePathCall env s src t).2 = s)
    ∧ (∀ (env : Env) (cfg : StratCfg) (target : PPath) (tag : String)
        (attrs : List (String × AttrVal)) (ch : NodeList)
        (st : List AssetReference) (k : String) (w : RefVal),
        (k, AttrVal.ref w) ∈ attrs →
        (⟨w.trav, w.module_path⟩ : AssetReference) ∈
          (renderWalk env cfg target (.elem true tag attrs ch) st).2)
    ∧ (renderPathNodes envSite ⟨none⟩ (parsePPath "mysite/pages/about.html") annotatedD
        (renderPathNodes envSite ⟨none⟩ (parsePPath "mysite/index.html")
          annotatedD []).2).2.length = 1
    ∧ hrefOf (renderPathNodes envSite ⟨none⟩ (parsePPath "mysite/index.html")
        annotatedD []).1 ≠
      hrefOf (renderPathNodes envSite ⟨none⟩ (parsePPath "mysite/pages/about.html")
        annotatedD
        (renderPathNodes envSite ⟨none⟩ (parsePPath "mysite/index.html")
          annotatedD []).2).1 := by
  refine ⟨fun env s src t => rfl, ?_, by decide, by decide⟩
  intro env cfg target tag attrs ch st k w hmem
  rw [renderWalk_elem_state]
  refine renderWalkList_state_mono env cfg target ch _ _ ?_
  have hany : attrs.any (fun kv => isRefVal kv.2) = true :=
    List.any_eq_true.mpr ⟨(k, .ref w), hmem, rfl⟩
  unfold renderTransformElem
  simp only [Bool.not_true, Bool.false_eq_true, if_false, hany, Bool.not_false]
  exact renderFold_adds env cfg target attrs ([], st) k w hmem

/-- Claim C2 witness: the render phase deposits a concrete reference's
entry into an initially empty collected set. -/
theorem claim_C2_witness :
    (⟨⟨"m", ["a.css"]⟩, ⟨false, ["m", "a.css"]⟩⟩ : AssetReference) ∈
      (renderWalk envSite ⟨none⟩ (parsePPath "index.html")
        (.elem true "link"
          [("href", .ref ⟨⟨"m", ["a.css"]⟩, ⟨false, ["m", "a.css"]⟩⟩)] .nil)
        []).2 :=
  claim_C2.2.1 envSite ⟨none⟩ (parsePPath "index.html") "link"
    [("href", .ref ⟨⟨"m", ["a.css"]⟩, ⟨false, ["m", "a.css"]⟩⟩)] .nil [] "href"
    ⟨⟨"m", ["a.css"]⟩, ⟨false, ["m", "a.css"]⟩⟩ (by decide)

theorem attrsGet_attrsSet_found (attrs : List (String × AttrVal)) (k : String)
    (v : AttrVal) (h : attrsGet attrs k ≠ .null) :
    attrsGet (attrsSet attrs k v) k = v := by
  induction attrs with
  | nil => exact absurd rfl h
  | cons kv rest ih =>
    by_cases hk : kv.1 == k
    · simp [attrsGet, attrsSet, List.find?, hk]
    · have h' : attrsGet rest k ≠ .null := by
        simpa [attrsGet, List.find?, hk] using h
      simpa [attrsGet, attrsSet, List.find?, hk] using ih h'

theorem attrsValidated_of_noref (env : Env) (attrs : List (String × AttrVal))
    (hnoref : attrs.any (fun kv => isRefVal kv.2) = false) :
    attrsValidated env attrs = true := by
  unfold attrsValidated
  rw [List.all_eq_true]
  intro kv hkv
  cases hv : kv.2 with
  | ref w =>
    exfalso
    have hT : attrs.any (fun kv => isRefVal kv.2) = true :=
      List.any_eq_true.mpr ⟨kv, hkv, by rw [hv]; rfl⟩
    rw [hT] at hnoref
    exact absurd hnoref (by decide)
  | str s => simp [hv]
  | null => simp [hv]

theorem attrsValidated_set_ref (env : Env) (attrs : List (String × AttrVal))
    (k : String) (h' : Handle) (mp : PPath)
    (hnoref : attrs.any (fun kv => isRefVal kv.2) = false)
    (hfile : env.isFile h' = true) :
    attrsValidated env (attrsSet attrs k (.ref ⟨h', mp⟩)) = true := by
  unfold attrsValidated attrsSet
  rw [List.all_eq_true]
  intro kv hkv
  rw [List.mem_map] at hkv
  obtain ⟨kv0, hkv0, heq⟩ := hkv
  by_cases hk : kv0.1 == k
  · rw [if_pos hk] at heq
    subst heq
    simpa using hfile
  · rw [if_neg hk] at heq
    subst heq
    cases hv : kv0.2 with
    | ref w =>
      exfalso
      have hT : attrs.any (fun kv => isRefVal kv.2) = true :=
        List.any_eq_true.mpr ⟨kv0, hkv0, by rw [hv]; rfl⟩
      rw [hT] at hnoref
      exact absurd hnoref (by decide)
    | str s => simp [hv]
    | null => simp [hv]

theorem transformAssetAttrs_id (env : Env) (c : Component) (marked : Bool)
    (attrs : List (String × AttrVal)) (attrName : String) (mk' : Bool)
    (attrs' : List (String × AttrVal))
    (h : transformAssetAttrs env c marked attrs attrName = .ok (mk', attrs', false)) :
    mk' = marked ∧ attrs' = attrs := by
  unfold transformAssetAttrs at h
  split at h
  · split at h
    · split at h
      · exact absurd h (by simp)
      · split at h
        · exact absurd h (by simp)
        · exact absurd h (by simp)
    · cases h
      exact ⟨rfl, rfl⟩
  · cases h
    exact ⟨rfl, rfl⟩

theorem annotateTransformElem_id (env : Env) (c : Component) (marked : Bool)
    (tag : String) (attrs : List (String × AttrVal)) (mk' : Bool)
    (attrs' : List (String × AttrVal))
    (h : annotateTransformElem env c marked tag attrs = .ok (mk', attrs', false)) :
    mk' = marked ∧ attrs' = attrs := by
  unfold annotateTransformElem at h
  split at h
  · exact transformAssetAttrs_id env c marked attrs "href" mk' attrs' h
  · split at h
    · exact transformAssetAttrs_id env c marked attrs "src" mk' attrs' h
    · cases h
      exact ⟨rfl, rfl⟩

theorem transformAssetAttrs_props (env : Env) (c : Component) (marked : Bool)
    (attrs : List (String × AttrVal)) (attrName : String) (mk' : Bool)
    (attrs' : List (String × AttrVal)) (f : Bool)
    (hnoref : attrs.any (fun kv => isRefVal kv.2) = false)
    (h : transformAssetAttrs env c marked attrs attrName = .ok (mk', attrs', f)) :
    shouldProcessHref (attrsGet attrs' attrName) = false ∧
    attrsValidated env attrs' = true := by
  unfold transformAssetAttrs at h
  split at h
  next v s hv =>
    by_cases hcond : (!s.isEmpty && !matchesExternal s) = true
    · rw [if_pos hcond] at h
      cases hmk : makeTraversable env c s with
      | error e => rw [hmk] at h; exact absurd h (by simp)
      | ok h' =>
        rw [hmk] at h
        by_cases hfile : env.isFile h' = true
        · simp only [hfile, if_true] at h
          cases h
          constructor
          · rw [attrsGet_attrsSet_found attrs attrName _ (by rw [hv]; simp)]
            rfl
          · exact attrsValidated_set_ref env attrs attrName h' _ hnoref hfile
        · simp only [hfile] at h
          simp at h
    · rw [if_neg hcond] at h
      cases h
      constructor
      · rw [hv]
        simpa [shouldProcessHref] using hcond
      · exact attrsValidated_of_noref env attrs hnoref
  next v hnostr =>
    cases h
    constructor
    · cases hv : attrsGet attrs attrName with
      | str s => exact absurd hv (hnostr s)
      | null => rfl
      | ref w => rfl
    · exact attrsValidated_of_noref env attrs hnoref

theorem annotateTransformElem_props (env : Env) (c : Component) (marked : Bool)
    (tag : String) (attrs : List (String × AttrVal)) (mk' : Bool)
    (attrs' : List (String × AttrVal)) (f : Bool)
    (hnoref : attrs.any (fun kv => isRefVal kv.2) = false)
    (h : annotateTransformElem env c marked tag attrs = .ok (mk', attrs', f)) :
    elemEligible tag attrs' = false ∧ attrsValidated env attrs' = true := by
  unfold annotateTransformElem at h
  split at h
  next htag =>
    obtain ⟨h1, h2⟩ := transformAssetAttrs_props env c marked attrs "href" mk' attrs' f
      hnoref h
    exact ⟨by simp [elemEligible, htag, h1], h2⟩
  next htag =>
    split at h
    next htag2 =>
      obtain ⟨h1, h2⟩ := transformAssetAttrs_props env c marked attrs "src" mk' attrs' f
        hnoref h
      exact ⟨by simp [elemEligible, htag, htag2, h1], h2⟩
    next htag2 =>
      have hinj : attrs' = attrs := by cases h; rfl
      rw [hinj]
      exact ⟨by simp [elemEligible, htag, htag2],
        attrsValidated_of_noref env attrs hnoref⟩

theorem annotatedOKL_toList (env : Env) :
    ∀ l : NodeList, annotatedOKL env l = l.toList.all (annotatedOK env)
  | .nil => rfl
  | .cons n ns => by
    simp only [annotatedOKL, NodeList.toList, List.all_cons,
      annotatedOKL_toList env ns]
termination_by structural l => l

theorem annotatedOKL_nlOf (env : Env) :
    ∀ xs : List Node, annotatedOKL env (nlOf xs) = xs.all (annotatedOK env)
  | [] => rfl
  | x :: xs => by
    simp only [nlOf, annotatedOKL, List.all_cons, annotatedOKL_nlOf env xs]

theorem annotateWalk_id (env : Env) (c : Component) :
    ∀ (n : Node) (n' : Node), annotateWalk env c n = .ok (n', false) → n' = n
  | .elem marked tag attrs ch => fun n' h => by
    rw [annotateWalk] at h
    cases ht : annotateTransformElem env c marked tag attrs with
    | error e => rw [ht] at h; exact absurd h (by simp)
    | ok tr =>
      rw [ht] at h
      cases hl : annotateWalkList env c ch with
      | error e => rw [hl] at h; exact absurd h (by simp)
      | ok rs =>
        rw [hl] at h
        cases hany : rs.any (fun r => r.2) with
        | true => simp [hany] at h
        | false =>
          obtain ⟨tr1, tr2, tr3⟩ := tr
          simp only [hany, Bool.false_eq_true, if_false, Except.ok.injEq,
            Prod.mk.injEq] at h
          obtain ⟨hA, hB⟩ := h
          subst hB
          obtain ⟨hid1, hid2⟩ :=
            annotateTransformElem_id env c marked tag attrs tr1 tr2 ht
          subst hid1
          subst hid2
          exact hA.symm
  | .frag ch => fun n' h => by
    rw [annotateWalk] at h
    cases hl : annotateWalkList env c ch with
    | error e => rw [hl] at h; exact absurd h (by simp)
    | ok rs =>
      rw [hl] at h
      cases hany : rs.any (fun r => r.2) with
      | true => simp [hany] at h
      | false =>
        simp only [hany, Bool.false_eq_true, if_false, Except.ok.injEq,
          Prod.mk.injEq] at h
        exact h.1.symm
  | .text s => fun n' h => by cases h; rfl
  | .comment s => fun n' h => by cases h; rfl

theorem annotateWalkList_id (env : Env) (c : Component) :
    ∀ (l : NodeList) (rs : List (Node × Bool)),
      annotateWalkList env c l = .ok rs → rs.any (fun r => r.2) = false →
      rs.map (fun r => r.1) = l.toList
  | .nil => fun rs h _ => by cases h; rfl
  | .cons n ns => fun rs h hany => by
    rw [annotateWalkList] at h
    cases hn : annotateWalk env c n with
    | error e => rw [hn] at h; exact absurd h (by simp)
    | ok r =>
      rw [hn] at h
      cases hl : annotateWalkList env c ns with
      | error e => rw [hl] at h; exact absurd h (by simp)
      | ok rs' =>
        rw [hl] at h
        cases h
        simp only [List.any_cons, Bool.or_eq_false_iff] at hany
        obtain ⟨r1, r2⟩ := r
        have hr2 : r2 = false := hany.1
        subst hr2
        have hid := annotateWalk_id env c n r1 hn
        simp only [List.map_cons, NodeList.toList, hid,
          annotateWalkList_id env c ns rs' hl hany.2]
termination_by structural l => l

theorem annotateTransformElem_skip (env : Env) (c : Component) (marked : Bool)
    (tag : String) (attrs : List (String × AttrVal))
    (h : elemEligible tag attrs = false) :
    annotateTransformElem env c marked tag attrs = .ok (marked, attrs, false) := by
  unfold annotateTransformElem
  unfold elemEligible at h
  by_cases h1 : tag = "link"
  · rw [if_pos h1] at h ⊢
    unfold transformAssetAttrs
    cases hv : attrsGet attrs "href" with
    | str s =>
      rw [hv] at h
      simp only [shouldProcessHref] at h
      simp [h]
    | null => rfl
    | ref r => rfl
  · rw [if_neg h1] at h ⊢
    by_cases h2 : tag = "script"
    · rw [if_pos h2] at h ⊢
      unfold transformAssetAttrs
      cases hv : attrsGet attrs "src" with
      | str s =>
        rw [hv] at h
        simp only [shouldProcessHref] at h
        simp [h]
      | null => rfl
      | ref r => rfl
    · rw [if_neg h2]

mutual
theorem annotate_noop (env : Env) (c : Component) :
    ∀ (n : Node), noEligible n = true → annotateWalk env c n = .ok (n, false)
  | .elem marked tag attrs ch => fun h => by
    simp only [noEligible, Bool.and_eq_true] at h
    have he : elemEligible tag attrs = false := by
      have h1 := h.1
      simpa using h1
    have hany : ((ch.toList.map fun x => (x, false)).any fun r => r.2) = false := by
      simp [List.any_map, Function.comp]
    simp only [annotateWalk, annotateTransformElem_skip env c marked tag attrs he,
      annotate_noop_list env c ch h.2, hany, Bool.false_eq_true, if_false]
  | .frag ch => fun h => by
    have hany : ((ch.toList.map fun x => (x, false)).any fun r => r.2) = false := by
      simp [List.any_map, Function.comp]
    simp only [annotateWalk, annotate_noop_list env c ch (by simpa [noEligible] using h),
      hany, Bool.false_eq_true, if_false]
  | .text s => fun _ => rfl
  | .comment s => fun _ => rfl
termination_by structural n => n
theorem annotate_noop_list (env : Env) (c : Component) :
    ∀ (l : NodeList), noEligibleL l = true →
      annotateWalkList env c l = .ok (l.toList.map (fun x => (x, false)))
  | .nil => fun _ => rfl
  | .cons n ns => fun h => by
    simp only [noEligibleL, Bool.and_eq_true] at h
    simp only [annotateWalkList, annotate_noop env c n h.1,
      annotate_noop_list env c ns h.2, NodeList.toList, List.map_cons]
termination_by structural l => l
end

mutual
theorem render_noop (env : Env) (cfg : StratCfg) (target : PPath) :
    ∀ (n : Node), noMarked n = true → ∀ st,
      renderWalk env cfg target n st = ((n, false), st)
  | .elem marked tag attrs ch => fun h st => by
    simp only [noMarked, Bool.and_eq_true] at h
    have hm : marked = false := by
      have h1 := h.1
      simpa using h1
    subst hm
    have htr : renderTransformElem env cfg target false attrs st =
        ((false, attrs, false), st) := by
      unfold renderTransformElem
      simp
    have hany : ((ch.toList.map fun x => (x, false)).any fun r => r.2) = false := by
      simp [List.any_map, Function.comp]
    simp only [renderWalk, htr, render_noop_list env cfg target ch h.2 st, hany,
      Bool.false_eq_true, if_false]
  | .frag ch => fun h st => by
    have hany : ((ch.toList.map fun x => (x, false)).any fun r => r.2) = false := by
      simp [List.any_map, Function.comp]
    simp only [renderWalk, render_noop_list env cfg target ch
      (by simpa [noMarked] using h) st, hany, Bool.false_eq_true, if_false]
  | .text s => fun _ _ => rfl
  | .comment s => fun _ _ => rfl
termination_by structural n => n
theorem render_noop_list (env : Env) (cfg : StratCfg) (target : PPath) :
    ∀ (l : NodeList), noMarkedL l = true → ∀ st,
      renderWalkList env cfg target l st = (l.toList.map (fun x => (x, false)), st)
  | .nil => fun _ _ => rfl
  | .cons n ns => fun h st => by
    simp only [noMarkedL, Bool.and_eq_true] at h
    simp only [renderWalkList, render_noop env cfg target n h.1 st,
      render_noop_list env cfg target ns h.2 st, NodeList.toList, List.map_cons]
termination_by structural l => l
end

theorem head?_append_some {α : Type} (l l' : List α) (e : α)
    (h : l.head? = some e) : (l ++ l').head? = some e := by
  cases l with
  | nil => simp at h
  | cons x xs => simpa using h

theorem all_map_fst (p : Node → Bool) :
    ∀ rs : List (Node × Bool), (rs.map (fun r => r.1)).all p = rs.all (fun r => p r.1)
  | [] => rfl
  | x :: xs => by simp only [List.map_cons, List.all_cons, all_map_fst p xs]

mutual
theorem annotateWalk_spec (env : Env) (c : Component) :
    ∀ (n : Node), containsRef n = false →
      (∀ e, annotateWalk env c n = .error e →
        (assetFailures env c n).head? = some e)
      ∧ (∀ r, annotateWalk env c n = .ok r →
        assetFailures env c n = [] ∧ annotatedOK env r.1 = true)
  | .elem marked tag attrs ch => fun hnr => by
    simp only [containsRef, Bool.or_eq_false_iff] at hnr
    obtain ⟨hnra, hnrc⟩ := hnr
    constructor
    · intro e he
      rw [annotateWalk] at he
      cases ht : annotateTransformElem env c marked tag attrs with
      | error e0 =>
        rw [ht] at he
        have he0 : e0 = e := by simpa using he
        subst he0
        simp [assetFailures, elemFailure, ht]
      | ok tr =>
        rw [ht] at he
        cases hl : annotateWalkList env c ch with
        | error e1 =>
          rw [hl] at he
          have he1 : e1 = e := by simpa using he
          subst he1
          have hL := ((annotateWalkList_spec env c ch hnrc).1) e1 hl
          simp [assetFailures, elemFailure, ht, hL]
        | ok rs =>
          rw [hl] at he
          cases hany : rs.any (fun r => r.2) with
          | true => simp [hany] at he
          | false => simp [hany] at he
    · intro r hr
      rw [annotateWalk] at hr
      cases ht : annotateTransformElem env c marked tag attrs with
      | error e0 => rw [ht] at hr; simp at hr
      | ok tr =>
        rw [ht] at hr
        cases hl : annotateWalkList env c ch with
        | error e1 => rw [hl] at hr; simp at hr
        | ok rs =>
          rw [hl] at hr
          obtain ⟨hLf, hLok⟩ := ((annotateWalkList_spec env c ch hnrc).2) rs hl
          obtain ⟨tr1, tr2, tr3⟩ := tr
          obtain ⟨hel, hval⟩ :=
            annotateTransformElem_props env c marked tag attrs tr1 tr2 tr3 hnra ht
          have hfail0 : assetFailures env c (.elem marked tag attrs ch) = [] := by
            simp [assetFailures, elemFailure, ht, hLf]
          refine ⟨hfail0, ?_⟩
          cases hany : rs.any (fun r1 => r1.2) with
          | true =>
            simp only [hany, if_true] at hr
            injection hr with hr'
            subst hr'
            simp only [annotatedOK, annotatedOKL_nlOf, all_map_fst, hel,
              Bool.not_false, hval, Bool.true_and]
            exact hLok
          | false =>
            simp only [hany, Bool.false_eq_true, if_false] at hr
            injection hr with hr'
            subst hr'
            have hmap := annotateWalkList_id env c ch rs hl hany
            simp only [annotatedOK, hel, Bool.not_false, hval, Bool.true_and]
            rw [annotatedOKL_toList, ← hmap, all_map_fst]
            exact hLok
  | .frag ch => fun hnr => by
    have hnrc : containsRefL ch = false := hnr
    constructor
    · intro e he
      rw [annotateWalk] at he
      cases hl : annotateWalkList env c ch with
      | error e1 =>
        rw [hl] at he
        have he1 : e1 = e := by simpa using he
        subst he1
        exact ((annotateWalkList_spec env c ch hnrc).1) e1 hl
      | ok rs =>
        rw [hl] at he
        cases hany : rs.any (fun r => r.2) with
        | true => simp [hany] at he
        | false => simp [hany] at he
    · intro r hr
      rw [annotateWalk] at hr
      cases hl : annotateWalkList env c ch with
      | error e1 => rw [hl] at hr; simp at hr
      | ok rs =>
        rw [hl] at hr
        obtain ⟨hLf, hLok⟩ := ((annotateWalkList_spec env c ch hnrc).2) rs hl
        refine ⟨hLf, ?_⟩
        cases hany : rs.any (fun r1 => r1.2) with
        | true =>
          simp only [hany, if_true] at hr
          injection hr with hr'
          subst hr'
          simp only [annotatedOK, annotatedOKL_nlOf, all_map_fst]
          exact hLok
        | false =>
          simp only [hany, Bool.false_eq_true, if_false] at hr
          injection hr with hr'
          subst hr'
          have hmap := annotateWalkList_id env c ch rs hl hany
          simp only [annotatedOK]
          rw [annotatedOKL_toList, ← hmap, all_map_fst]
          exact hLok
  | .text s => fun _ => by
    constructor
    · intro e he; simp [annotateWalk] at he
    · intro r hr
      rw [annotateWalk] at hr
      injection hr with hr'
      subst hr'
      exact ⟨rfl, rfl⟩
  | .comment s => fun _ => by
    constructor
    · intro e he; simp [annotateWalk] at he
    · intro r hr
      rw [annotateWalk] at hr
      injection hr with hr'
      subst hr'
      exact ⟨rfl, rfl⟩
termination_by structural n => n
theorem annotateWalkList_spec (env : Env) (c : Component) :
    ∀ (l : NodeList), containsRefL l = false →
      (∀ e, annotateWalkList env c l = .error e →
        (assetFailuresL env c l).head? = some e)
      ∧ (∀ rs, annotateWalkList env c l = .ok rs →
        assetFailuresL env c l = [] ∧
        (rs.all (fun r => annotatedOK env r.1)) = true)
  | .nil => fun _ => by
    constructor
    · intro e he; simp [annotateWalkList] at he
    · intro rs hr
      rw [annotateWalkList] at hr
      injection hr with hr'
      subst hr'
      exact ⟨rfl, rfl⟩
  | .cons n ns => fun hnr => by
    simp only [containsRefL, Bool.or_eq_false_iff] at hnr
    obtain ⟨hn, hns⟩ := hnr
    constructor
    · intro e he
      rw [annotateWalkList] at he
      cases hw : annotateWalk env c n with
      | error e0 =>
        rw [hw] at he
        have he0 : e0 = e := by simpa using he
        subst he0
        have h0 := (annotateWalk_spec env c n hn).1 e0 hw
        exact head?_append_some _ _ e0 h0
      | ok r =>
        rw [hw] at he
        cases hl : annotateWalkList env c ns with
        | error e1 =>
          rw [hl] at he
          have he1 : e1 = e := by simpa using he
          subst he1
          have h1 := (annotateWalkList_spec env c ns hns).1 e1 hl
          have h0 := ((annotateWalk_spec env c n hn).2) r hw
          simp only [assetFailuresL, h0.1, List.nil_append]
          exact h1
        | ok rs' => rw [hl] at he; simp at he
    · intro rs hr
      rw [annotateWalkList] at hr
      cases hw : annotateWalk env c n with
      | error e0 => rw [hw] at hr; simp at hr
      | ok r =>
        rw [hw] at hr
        cases hl : annotateWalkList env c ns with
        | error e1 => rw [hl] at hr; simp at hr
        | ok rs' =>
          rw [hl] at hr
          injection hr with hr'
          subst hr'
          have h0 := ((annotateWalk_spec env c n hn).2) r hw
          have h1 := ((annotateWalkList_spec env c ns hns).2) rs' hl
          constructor
          · simp [assetFailuresL, h0.1, h1.1]
          · simp [List.all_cons, h0.2, h1.2]
termination_by structural l => l
end

/-- Claim C7: for reference-free input trees the Annotate Phase either
aborts with exactly the first failure (in pre-order: element before its
children, children left to right) of the asset transforms — never
batching several failures — or fully succeeds, returning a tree in which
no eligible `link[href]`/`script[src]` asset string remains and every
stored reference has been validated to exist.  The embedding is purely
functional, mirroring the code's copy-on-write walker: the input tree is
never mutated. -/
theorem claim_C7 (env : Env) (c : Component) (t : Node)
    (hin : containsRef t = false) :
    (∀ e, makePathNodes env c t = .error e ↔
      (assetFailures env c t).head? = some e)
    ∧ (∀ t', makePathNodes env c t = .ok t' →
        assetFailures env c t = [] ∧ annotatedOK env t' = true) := by
  have hs := annotateWalk_spec env c t hin
  constructor
  · intro e
    constructor
    · intro he
      cases hw : annotateWalk env c t with
      | error e0 =>
        have he0 : e0 = e := by
          rw [makePathNodes, hw] at he
          simpa [Except.map] using he
        subst he0
        exact hs.1 e0 hw
      | ok r =>
        rw [makePathNodes, hw] at he
        simp [Except.map] at he
    · intro hh
      cases hw : annotateWalk env c t with
      | error e0 =>
        have h0 := hs.1 e0 hw
        rw [h0] at hh
        injection hh with hh'
        rw [makePathNodes, hw, ← hh']
        rfl
      | ok r =>
        have h2 := (hs.2 r hw).1
        rw [h2] at hh
        simp at hh
  · intro t' ht'
    cases hw : annotateWalk env c t with
    | error e0 =>
      rw [makePathNodes, hw] at ht'
      simp [Except.map] at ht'
    | ok r =>
      have h2 := hs.2 r hw
      have htr : t' = r.1 := by
        rw [makePathNodes, hw] at ht'
        simpa [Except.map] using ht'.symm
      rw [htr]
      exact h2

/-- Claim C7 witness: with every existence check failing, a tree holding
two assets aborts with the error of the FIRST one. -/
theorem claim_C7_witness :
    makePathNodes envBroken compHeading twoAssetTree =
      .error (.missingAsset "href"
        ⟨"mysite.components.heading", ["first.css"]⟩) :=
  ((claim_C7 envBroken compHeading twoAssetTree rfl).1
    (.missingAsset "href" ⟨"mysite.components.heading", ["first.css"]⟩)).mpr
    (by decide)

/-- Claim C8 (code bug): a `script[src]` asset element with an eligible
`link[href]` asset element as its child is rebuilt by the walker as a
PLAIN element (losing the `TraversableElement` marker) while keeping its
resolved `src` reference, so the render phase skips it and the rendered
tree still contains a Resolved Asset Reference, contradicting the
round-trip property. -/
theorem claim_C8_bug :
    makePathNodes envSite compHeading nestedAssetTree = .ok annotatedNested
    ∧ containsRef annotatedNested = true
    ∧ containsRef (renderPathNodes envSite ⟨none⟩ (parsePPath "index.html")
        annotatedNested []).1 = true :=
  ⟨rfl, rfl, rfl⟩

/-- Claim C9: a tree with no eligible `link`/`script` asset attributes is
returned from the Annotate Phase as the same object with no new-object
flag set, and a tree with no Path-bearing elements is likewise returned
unchanged (same object, untouched collected-assets state) from the
Render Phase. -/
theorem claim_C9 (env : Env) (c : Component) (cfg : StratCfg) (target : PPath)
    (t : Node) (st : List AssetReference) :
    (noEligible t = true →
      annotateWalk env c t = .ok (t, false) ∧ makePathNodes env c t = .ok t)
    ∧ (noMarked t = true →
      renderWalk env cfg target t st = ((t, false), st) ∧
      renderPathNodes env cfg target t st = (t, st)) := by
  constructor
  · intro h
    have hw := annotate_noop env c t h
    exact ⟨hw, by rw [makePathNodes, hw]; rfl⟩
  · intro h
    have hw := render_noop env cfg target t h st
    exact ⟨hw, by rw [renderPathNodes, hw]⟩

/-- Claim C9 witness: a concrete ineligible tree (a `div` with an `href`,
an external-URL `link`, a text node) passes through both phases as a
no-op. -/
theorem claim_C9_witness :
    makePathNodes envSite compHeading noopTree = .ok noopTree
    ∧ renderPathNodes envSite ⟨none⟩ (parsePPath "index.html") noopTree [] =
        (noopTree, []) :=
  ⟨((claim_C9 envSite compHeading ⟨none⟩ (parsePPath "index.html") noopTree []).1
      (by decide)).2,
   ((claim_C9 envSite compHeading ⟨none⟩ (parsePPath "index.html") noopTree []).2
      (by decide)).2⟩

/-- Claim C1 witness: the amended Canonical Path rule evaluated on a
concrete relative-form asset. -/
theorem claim_C1_witness :
    makePathNodes envSite compHeading
        (.elem false "link" [("href", .str "static/styles.css")] .nil) =
      .ok (.elem true "link"
        [("href", .ref ⟨⟨"mysite.components.heading", ["static", "styles.css"]⟩,
          ⟨false, ["mysite", "components", "heading", "static", "styles.css"]⟩⟩)]
        .nil) :=
  (claim_C1 envSite compHeading "mysite.components.heading" "static/styles.css"
    ⟨"mysite.components.heading", ["static", "styles.css"]⟩
    rfl (by decide) rfl rfl).1

end TdomPath
